import Mathlib

/-! DynamicTable.jsx: the grid model and the export mappings

A shallow embedding of the data core of `src/DynamicTable.jsx`: the `table`
state (an array of row arrays), the five state updaters `addRow`, `addColumn`,
`deleteRow`, `deleteColumn`, `handleInput`, and the data that `exportPDF`,
`exportExcel` and `exportWord` hand to their document libraries.

JavaScript arrays are lists.  A row array can contain strings, the value
`undefined`, and holes (indices below `length` that hold nothing); the three
are kept apart because `[...row]` turns holes into `undefined` while
`row.filter` skips holes.  The outer array is only ever built by spreading,
`map` and `filter`, so it never has holes and is a plain list of rows.
Array indices end at 2^32 - 2, which `assignIndex` observes.
A statement that throws is the `error` case of `Except`.

The closures of a render read the `table` of that render, while an updater
passed to `setTable` receives the latest state `prev`; `deleteRow` and
`deleteColumn` therefore take both grids, and `View` keeps them apart until the
next re-render.
-/

namespace DynamicTable

/-! ## Data model -/

/-- What a row array holds at one index below its length. -/
inductive Cell where
  | text (s : String)
  | undefined
  | hole
  deriving DecidableEq, Repr

/-- One row array. -/
abbrev Row := List Cell

/-- The `table` state: rows x cols. -/
abbrev Grid := List Row

/-- Exceptions raised by the embedded statements. -/
inductive JsError where
  | typeError
  deriving DecidableEq, Repr

/-- A row of text cells as a row array. -/
def Row.ofText (cells : List String) : Row := cells.map Cell.text

/-- A grid of text cells as a `table` value. -/
def Grid.ofText (t : List (List String)) : Grid := t.map Row.ofText

/-- `useState([[""]])`. -/
def initialTable : Grid := [[Cell.text ""]]

/-! ## Array primitives used by the component -/

/-- `[...row]`: the array iterator yields `undefined` at a hole. -/
def spread (row : Row) : Row :=
  row.map fun cell =>
    match cell with
    | Cell.hole => Cell.undefined
    | other => other

/-- `Array(n).fill("")`. -/
def arrayFill (n : Nat) : Row := List.replicate n (Cell.text "")

/-- `arr.filter((_, i) => i !== index)`, the loop from position `k` on.
`absent x` says that the slot is a hole, which `filter` does not visit. -/
def filterNe {α : Type} (absent : α → Bool) (index : Nat) : Nat → List α → List α
  | _, [] => []
  | k, x :: xs =>
    if absent x then filterNe absent index (k + 1) xs
    else if k ≠ index then x :: filterNe absent index (k + 1) xs
    else filterNe absent index (k + 1) xs

/-- Whether a slot of a row array is a hole. -/
def Cell.isHole : Cell → Bool
  | Cell.hole => true
  | _ => false

/-- The first number that is not an array index: array indices are the
integers from 0 to 2^32 - 2. -/
def arrayIndexLimit : Nat := 4294967295

/-- `row[c] = v`: an index below the length is overwritten; an array index at or
past the length grows the array to `c + 1`, leaving holes in between; a number
that is not an array index (`c >= 2^32 - 1`) names a plain property of the row
object, so the elements and the length stay as they are. -/
def assignIndex (row : Row) (c : Nat) (v : Cell) : Row :=
  if c < row.length then row.set c v
  else if c < arrayIndexLimit then row ++ List.replicate (c - row.length) Cell.hole ++ [v]
  else row

/-! ## State updaters (lines 26-52) -/

/-- `addRow`: `[...prev, Array(prev[0].length).fill("")]`; reading `.length`
of `prev[0]` throws when `prev` has no row. -/
def addRow (prev : Grid) : Except JsError Grid :=
  match prev with
  | [] => Except.error JsError.typeError
  | first :: _ => Except.ok (prev ++ [arrayFill first.length])

/-- `addColumn`: `prev.map((r) => [...r, ""])`. -/
def addColumn (prev : Grid) : Grid :=
  prev.map fun r => spread r ++ [Cell.text ""]

/-- `deleteRow(index)`: the guard reads the rendered `table`, the updater
receives `prev`; when the guard returns, the state stays `prev`. -/
def deleteRow (table : Grid) (index : Nat) (prev : Grid) : Grid :=
  if table.length = 1 then prev
  else filterNe (fun _ => false) index 0 prev

/-- `deleteColumn(colIndex)`: the guard reads `table[0].length`, which throws
when `table` has no row; otherwise every row of `prev` is filtered. -/
def deleteColumn (table : Grid) (colIndex : Nat) (prev : Grid) : Except JsError Grid :=
  match table with
  | [] => Except.error JsError.typeError
  | first :: _ =>
    if first.length = 1 then Except.ok prev
    else Except.ok (prev.map fun row => filterNe Cell.isHole colIndex 0 row)

/-- `handleInput(r, c, v)`: every row is copied by spreading, then
`copy[r][c] = v`; the assignment throws when `copy[r]` is `undefined`. -/
def handleInput (r c : Nat) (v : String) (prev : Grid) : Except JsError Grid :=
  let copy := prev.map spread
  match copy[r]? with
  | none => Except.error JsError.typeError
  | some row => Except.ok (copy.set r (assignIndex row c (Cell.text v)))

/-! ## The component as a transition system -/

/-- One call of a state updater. -/
inductive Op where
  | addRow
  | addColumn
  | deleteRow (index : Nat)
  | deleteColumn (index : Nat)
  | setCell (row col : Nat) (value : String)
  deriving DecidableEq, Repr

/-- One call: the guards of `deleteRow` and `deleteColumn` read `table`, the
grid of the render whose closure is called; every updater receives `prev`, the
state after the updaters queued so far. -/
def applyOp (table : Grid) (op : Op) (prev : Grid) : Except JsError Grid :=
  match op with
  | Op.addRow => addRow prev
  | Op.addColumn => Except.ok (addColumn prev)
  | Op.deleteRow index => Except.ok (deleteRow table index prev)
  | Op.deleteColumn index => deleteColumn table index prev
  | Op.setCell row col value => handleInput row col value prev

/-- The component between two events: `table` is the grid of the last render,
which the closures of that render read; `state` is the state after the updaters
queued since then. -/
structure View where
  table : Grid
  state : Grid
  deriving DecidableEq, Repr

/-- The first render of `useState([[""]])`. -/
def initialView : View := View.mk initialTable initialTable

/-- What happens to the component: a call of a state updater through the
closures of the last render, or a re-render. -/
inductive Event where
  | call (op : Op)
  | render
  deriving DecidableEq, Repr

/-- One event.  A call leaves the rendered `table` as it is and updates `state`;
a re-render makes the current state the rendered grid.  A call that throws
produces no new state. -/
def stepView (v : View) : Event → Except JsError View
  | Event.call op =>
    match applyOp v.table op v.state with
    | Except.error e => Except.error e
    | Except.ok s => Except.ok (View.mk v.table s)
  | Event.render => Except.ok (View.mk v.state v.state)

/-- Runs a sequence of events from `v`; an event that throws ends the run. -/
def runEvents (v : View) : List Event → Except JsError View
  | [] => Except.ok v
  | e :: rest =>
    match stepView v e with
    | Except.error err => Except.error err
    | Except.ok v' => runEvents v' rest

/-- Views reachable from the first render by calls with arbitrary arguments,
re-rendered or not between the calls. -/
inductive Reachable : View → Prop where
  | init : Reachable initialView
  | event (v v' : View) (e : Event) : Reachable v → stepView v e = Except.ok v' → Reachable v'

/-- The conditions under which the shape invariant is kept: `deleteRow` and
`deleteColumn` are called from a render that shows the current state (no state
update since that render), and `setCell` addresses an existing cell of the
current state.  `addRow`, `addColumn` and re-renders carry no condition. -/
def Event.admissible (v : View) : Event → Prop
  | Event.call (Op.deleteRow _) => v.table = v.state
  | Event.call (Op.deleteColumn _) => v.table = v.state
  | Event.call (Op.setCell row col _) => ∃ r, v.state[row]? = some r ∧ col < r.length
  | _ => True

/-- Views reachable from the first render by admissible events, the index
arguments of `deleteRow` and `deleteColumn` being arbitrary. -/
inductive ReachableAdmissible : View → Prop where
  | init : ReachableAdmissible initialView
  | event (v v' : View) (e : Event) : ReachableAdmissible v → e.admissible v →
      stepView v e = Except.ok v' → ReachableAdmissible v'

/-- Every two rows have the same length. -/
def Rectangular {α : Type} (g : List (List α)) : Prop :=
  ∀ r ∈ g, ∀ r' ∈ g, r.length = r'.length

/-- The grid shape invariant: at least one row, at least one column, all rows
of the same length. -/
def WellShaped (g : Grid) : Prop :=
  1 ≤ g.length ∧ (∀ r ∈ g, 1 ≤ r.length) ∧ Rectangular g

/-- The length of the first row, `0` for a grid without rows. -/
def columnCount {α : Type} (g : List (List α)) : Nat :=
  match g with
  | [] => 0
  | first :: _ => first.length

/-- The cell at `(i, j)` of a grid of text, if the position exists. -/
def cellAt (t : List (List String)) (i j : Nat) : Option String :=
  match t[i]? with
  | none => none
  | some row => row[j]?

/-! ## Export mappings (lines 72-126) -/

/-- The string `join` appends for an element: `undefined` and holes give the
empty string. -/
def cellToString : Cell → String
  | Cell.text s => s
  | _ => ""

/-- The loop of `Array.prototype.join`: `R` is the string built so far and `k`
the index of the next element; the separator is appended before every element
but the first. -/
def joinLoop (sep : String) : Nat → Row → String → String
  | _, [], R => R
  | k, e :: rest, R =>
    joinLoop sep (k + 1) rest ((if k > 0 then R ++ sep else R) ++ cellToString e)

/-- `row.join(sep)`. -/
def join (row : Row) (sep : String) : String := joinLoop sep 0 row ""

/-- Calls that `exportPDF` issues on the jsPDF document. -/
inductive PdfCall where
  | text (line : String) (x y : Nat)
  | save (fileName : String)
  deriving DecidableEq, Repr

/-- `table.forEach((row, i) => doc.text(row.join("   |   "), left, topStart + i * lineHeight))`
from index `i` on, with `left = 40`, `topStart = 40`, `lineHeight = 18`. -/
def forEachText : Nat → Grid → List PdfCall
  | _, [] => []
  | i, row :: rest =>
    PdfCall.text (join row "   |   ") 40 (40 + i * 18) :: forEachText (i + 1) rest

/-- `exportPDF`: the text placements followed by `doc.save("table.pdf")`. -/
def exportPDF (table : Grid) : List PdfCall :=
  forEachText 0 table ++ [PdfCall.save "table.pdf"]

/-- Calls that `exportExcel` issues on the XLSX library. -/
inductive XlsxCall where
  | aoaToSheet (data : Grid)
  | bookNew
  | bookAppendSheet (sheetName : String)
  | writeFile (fileName : String)
  deriving DecidableEq, Repr

/-- `exportExcel`: the grid is handed to `aoa_to_sheet` as it is. -/
def exportExcel (table : Grid) : List XlsxCall :=
  [XlsxCall.aoaToSheet table, XlsxCall.bookNew, XlsxCall.bookAppendSheet "Table",
   XlsxCall.writeFile "table.xlsx"]

/-- `Math.max(...lengths)`: starts from `-Infinity` (`none`) and keeps the
larger number. -/
def mathMax (lengths : List Nat) : Option Nat :=
  lengths.foldl
    (fun highest n =>
      match highest with
      | none => some n
      | some h => if n > h then some n else some h)
    none

/-- `n < maxCols`, where `maxCols` may be `-Infinity`. -/
def ltMax (n : Nat) : Option Nat → Bool
  | none => false
  | some m => decide (n < m)

/-- `while (padded.length < maxCols) padded.push("")`. -/
def padLoop (maxCols : Option Nat) (padded : Row) : Row :=
  if ltMax padded.length maxCols = true then padLoop maxCols (padded ++ [Cell.text ""])
  else padded
termination_by maxCols.getD 0 - padded.length
decreasing_by
  cases maxCols with
  | none => simp [ltMax] at *
  | some m =>
    simp [ltMax] at *
    omega

/-- `cell || " "`: the empty string and `undefined` are falsy. -/
def orSpace : Cell → String
  | Cell.text s => if s = "" then " " else s
  | _ => " "

/-- A `TableCell` handed to docx: its width in DXA and its paragraph text. -/
structure WordCell where
  width : Nat
  paragraph : String
  deriving DecidableEq, Repr

/-- The section children handed to `new Document`: the table rows, the table
width in percent, and the text of the paragraph after the table. -/
structure WordDoc where
  rows : List (List WordCell)
  widthPercent : Nat
  trailing : String
  deriving DecidableEq, Repr

/-- `exportWord`, up to the construction of the document. -/
def exportWord (table : Grid) : WordDoc :=
  let maxCols := mathMax (table.map fun r => r.length)
  let rows := table.map fun row =>
    let padded := padLoop maxCols (spread row)
    padded.map fun cell => { width := 2000, paragraph := orSpace cell : WordCell }
  { rows := rows, widthPercent := 100, trailing := " " }

/-! ## References written from the specification -/

/-- The specified `deleteRow(index)`: a grid with exactly one row is returned
unchanged; otherwise an index in bounds removes exactly that row, the other rows
keeping their order, and an index out of bounds changes nothing. -/
def deleteRowRef (g : Grid) (index : Nat) : Grid :=
  if g.length = 1 then g
  else if index < g.length then g.take index ++ g.drop (index + 1)
  else g

/-- The specified `deleteColumn(index)` on a grid of text: a grid with exactly
one column is returned unchanged; otherwise every row loses exactly the cell at
`index`, the remaining cells keeping their order. -/
def deleteColumnRef (t : List (List String)) (index : Nat) : List (List String) :=
  if columnCount t = 1 then t
  else t.map fun row => row.take index ++ row.drop (index + 1)

/-- No slot of the row is a hole. -/
def Row.dense (row : Row) : Prop := ∀ cell ∈ row, cell.isHole = false

/-- The invariant carried along a run: the shape invariant, and no row has a
hole. -/
def Inv (g : Grid) : Prop := WellShaped g ∧ ∀ r ∈ g, Row.dense r

/-! ## Lemmas on the array primitives -/

theorem spread_of_dense (row : Row) (h : Row.dense row) : spread row = row := by
  unfold spread
  conv_rhs => rw [← List.map_id row]
  apply List.map_congr_left
  intro cell hc
  have := h cell hc
  cases cell <;> simp_all [Cell.isHole]

theorem dense_ofText (cells : List String) : Row.dense (Row.ofText cells) := by
  intro cell hc
  simp only [Row.ofText, List.mem_map] at hc
  obtain ⟨s, _, rfl⟩ := hc
  rfl

theorem spread_ofText (cells : List String) : spread (Row.ofText cells) = Row.ofText cells :=
  spread_of_dense _ (dense_ofText cells)

theorem length_spread (row : Row) : (spread row).length = row.length := by
  simp [spread]

theorem dense_spread (row : Row) : Row.dense (spread row) := by
  intro cell hc
  simp only [spread, List.mem_map] at hc
  obtain ⟨c, _, rfl⟩ := hc
  cases c <;> rfl

/-- On slots that are all present, the filter loop started at `k` removes the
element at distance `index - k`, provided the loop has not passed `index`. -/
theorem filterNe_eq_eraseIdx {α : Type} (absent : α → Bool) (index : Nat) (l : List α) :
    ∀ k, (∀ x ∈ l, absent x = false) → k ≤ index →
      filterNe absent index k l = l.eraseIdx (index - k) := by
  induction l with
  | nil => intro k _ _; simp [filterNe]
  | cons x xs ih =>
    intro k hp hk
    have hx : absent x = false := hp x (List.mem_cons_self _ _)
    have hxs : ∀ y ∈ xs, absent y = false := fun y hy => hp y (List.mem_cons_of_mem _ hy)
    by_cases hki : k = index
    · subst hki
      have hrest : ∀ (l : List α) (j : Nat), (∀ y ∈ l, absent y = false) → k < j →
          filterNe absent k j l = l := by
        intro l
        induction l with
        | nil => intro j _ _; simp [filterNe]
        | cons y ys ihy =>
          intro j hpy hj
          have hy : absent y = false := hpy y (List.mem_cons_self _ _)
          have hne : j ≠ k := by omega
          simp [filterNe, hy, hne, ihy (j + 1) (fun z hz => hpy z (List.mem_cons_of_mem _ hz))
            (by omega)]
      simp [filterNe, hx, hrest xs (k + 1) hxs (by omega)]
    · have hlt : k + 1 ≤ index := by omega
      have hsub : index - k = (index - (k + 1)) + 1 := by omega
      simp [filterNe, hx, hki, ih (k + 1) hxs hlt, hsub]

theorem eraseIdx_eq_take_append_drop {α : Type} (l : List α) (i : Nat) :
    l.eraseIdx i = l.take i ++ l.drop (i + 1) := by
  induction l generalizing i with
  | nil => simp
  | cons x xs ih =>
    cases i with
    | zero => simp
    | succ n => simp [ih n]

theorem length_eraseIdx_lt {α : Type} (l : List α) (i : Nat) (h : i < l.length) :
    (l.eraseIdx i).length + 1 = l.length := by
  rw [List.length_eraseIdx]
  simp [h]
  omega

theorem eraseIdx_of_le {α : Type} (l : List α) (i : Nat) (h : l.length ≤ i) :
    l.eraseIdx i = l := List.eraseIdx_of_length_le h

theorem deleteRow_eq_eraseIdx (g : Grid) (index : Nat) (h : g.length ≠ 1) :
    deleteRow g index g = g.eraseIdx index := by
  unfold deleteRow
  rw [if_neg h]
  simpa using filterNe_eq_eraseIdx (fun _ => false) index g 0 (fun _ _ => rfl) (Nat.zero_le _)

theorem filterNe_row_ofText (cells : List String) (index : Nat) :
    filterNe Cell.isHole index 0 (Row.ofText cells)
      = Row.ofText (cells.take index ++ cells.drop (index + 1)) := by
  have h := filterNe_eq_eraseIdx Cell.isHole index (Row.ofText cells) 0
    (dense_ofText cells) (Nat.zero_le _)
  rw [h, Nat.sub_zero, eraseIdx_eq_take_append_drop]
  simp [Row.ofText, List.map_take, List.map_drop]

theorem rectangular_ofText (t : List (List String)) (h : Rectangular t) :
    Rectangular (Grid.ofText t) := by
  intro r hr r' hr'
  simp only [Grid.ofText, List.mem_map] at hr hr'
  obtain ⟨a, ha, rfl⟩ := hr
  obtain ⟨b, hb, rfl⟩ := hr'
  simpa [Row.ofText] using h a ha b hb

/-! ## The structural updaters -/

/-- C4: on a rectangular grid with at least one row, `addRow` returns the
original rows unchanged and in order followed by exactly one new row; the row
count grows by exactly 1, the column count is unchanged, the new last row has as
many cells as there are columns, all of them the empty string, and the result is
again rectangular. -/
theorem addRow_appends_empty_row (g : Grid) (hne : g ≠ []) (hrect : Rectangular g) :
    ∃ newRow : Row,
      addRow g = Except.ok (g ++ [newRow]) ∧
      (g ++ [newRow]).length = g.length + 1 ∧
      columnCount (g ++ [newRow]) = columnCount g ∧
      newRow.length = columnCount g ∧
      (∀ cell ∈ newRow, cell = Cell.text "") ∧
      Rectangular (g ++ [newRow]) := by
  cases g with
  | nil => exact absurd rfl hne
  | cons first rest =>
    refine ⟨arrayFill first.length, rfl, by simp, rfl, by simp [arrayFill, columnCount], ?_, ?_⟩
    · intro cell hc
      exact List.eq_of_mem_replicate hc
    · have hfirst : ∀ r ∈ first :: rest, r.length = first.length := fun r hr =>
        hrect r hr first (List.mem_cons_self _ _)
      have hall : ∀ r ∈ (first :: rest) ++ [arrayFill first.length], r.length = first.length := by
        intro r hr
        rcases List.mem_append.1 hr with h | h
        · exact hfirst r h
        · simp only [List.mem_singleton] at h
          subst h
          simp [arrayFill]
      intro r hr r' hr'
      rw [hall r hr, hall r' hr']

/-- The statement of C4 at the one-row grid `[["a","b"]]`. -/
theorem addRow_appends_empty_row_witness :
    ∃ newRow : Row,
      addRow [[Cell.text "a", Cell.text "b"]] = Except.ok ([[Cell.text "a", Cell.text "b"]] ++ [newRow]) ∧
      ([[Cell.text "a", Cell.text "b"]] ++ [newRow]).length = [[Cell.text "a", Cell.text "b"]].length + 1 ∧
      columnCount ([[Cell.text "a", Cell.text "b"]] ++ [newRow]) = columnCount [[Cell.text "a", Cell.text "b"]] ∧
      newRow.length = columnCount [[Cell.text "a", Cell.text "b"]] ∧
      (∀ cell ∈ newRow, cell = Cell.text "") ∧
      Rectangular ([[Cell.text "a", Cell.text "b"]] ++ [newRow]) :=
  addRow_appends_empty_row [[Cell.text "a", Cell.text "b"]] (by decide)
    (by intro r hr r' hr'; simp at hr hr'; subst hr; subst hr'; rfl)

/-- C5: on every grid of text, `addColumn` keeps the number of rows and turns
each row into the same row with exactly one empty string appended at the end, so
every row grows by exactly 1 and no existing cell changes; from the initial
grid, `addColumn` then `addRow` gives `[["",""],["",""]]`. -/
theorem addColumn_appends_empty_cell (t : List (List String)) :
    addColumn (Grid.ofText t) = Grid.ofText (t.map fun row => row ++ [""]) ∧
    (addColumn (Grid.ofText t)).length = t.length ∧
    (∀ (i : Nat) (row : List String), t[i]? = some row →
      (addColumn (Grid.ofText t))[i]? = some (Row.ofText (row ++ [""])) ∧
      (Row.ofText (row ++ [""])).length = row.length + 1) ∧
    addRow (addColumn initialTable) = Except.ok (Grid.ofText [["", ""], ["", ""]]) := by
  have hmain : addColumn (Grid.ofText t) = Grid.ofText (t.map fun row => row ++ [""]) := by
    simp only [addColumn, Grid.ofText, List.map_map]
    apply List.map_congr_left
    intro row _
    show spread (Row.ofText row) ++ [Cell.text ""] = Row.ofText (row ++ [""])
    rw [spread_ofText]
    simp [Row.ofText]
  refine ⟨hmain, by simp [addColumn, Grid.ofText], ?_, rfl⟩
  intro i row hrow
  constructor
  · rw [hmain]
    simp [Grid.ofText, hrow]
  · simp [Row.ofText]

/-- C6: for every grid and every index, `deleteRow(index)` is the specified
reference: a grid with exactly one row is returned unchanged; otherwise an index
in bounds removes exactly the row at that index, the other rows staying in
order, and an index out of bounds returns the grid unchanged. -/
theorem deleteRow_eq_ref (g : Grid) (index : Nat) :
    deleteRow g index g = deleteRowRef g index := by
  unfold deleteRowRef
  by_cases h1 : g.length = 1
  · simp [deleteRow, h1]
  · rw [deleteRow_eq_eraseIdx g index h1, if_neg h1]
    by_cases hi : index < g.length
    · rw [if_pos hi, eraseIdx_eq_take_append_drop]
    · rw [if_neg hi, eraseIdx_of_le g index (by omega)]

/-- C7: for every rectangular grid of text and every index, `deleteColumn(index)`
is the specified reference: with exactly one column the grid is returned
unchanged; otherwise, for an index in bounds, every row of the result is the
original row without the cell at that index, the remaining cells in order, so
every row is one shorter and the row count is unchanged. -/
theorem deleteColumn_eq_ref (t : List (List String)) (index : Nat) (hrect : Rectangular t)
    (hcase : columnCount t = 1 ∨ index < columnCount t) :
    deleteColumn (Grid.ofText t) index (Grid.ofText t)
      = Except.ok (Grid.ofText (deleteColumnRef t index)) ∧
    (columnCount t = 1 → deleteColumnRef t index = t) ∧
    (columnCount t ≠ 1 →
      (deleteColumnRef t index).length = t.length ∧
      ∀ (i : Nat) (row : List String), t[i]? = some row →
        (deleteColumnRef t index)[i]? = some (row.take index ++ row.drop (index + 1)) ∧
        (row.take index ++ row.drop (index + 1)).length + 1 = row.length) := by
  cases t with
  | nil => simp [columnCount] at hcase
  | cons first rest =>
    have hcc : columnCount (first :: rest) = first.length := rfl
    refine ⟨?_, ?_, ?_⟩
    · by_cases h1 : first.length = 1
      · simp [deleteColumn, deleteColumnRef, Grid.ofText, Row.ofText, hcc, h1]
      · have hmap : (Grid.ofText (first :: rest)).map (fun row => filterNe Cell.isHole index 0 row)
            = Grid.ofText ((first :: rest).map fun row => row.take index ++ row.drop (index + 1)) := by
          simp only [Grid.ofText, List.map_map]
          apply List.map_congr_left
          intro row _
          exact filterNe_row_ofText row index
        have hlen : (Row.ofText first).length ≠ 1 := by simpa [Row.ofText] using h1
        show deleteColumn (Row.ofText first :: Grid.ofText rest) index (Grid.ofText (first :: rest)) = _
        unfold deleteColumn
        simp only [if_neg hlen]
        rw [hmap]
        simp [deleteColumnRef, hcc, h1]
    · intro h1
      simp [deleteColumnRef, h1]
    · intro h1
      have hidx : index < first.length := by
        rcases hcase with h | h
        · exact absurd h h1
        · simpa [hcc] using h
      have href : deleteColumnRef (first :: rest) index
          = (first :: rest).map fun row => row.take index ++ row.drop (index + 1) := by
        simp only [deleteColumnRef, if_neg h1]
      refine ⟨by rw [href]; simp, ?_⟩
      intro i row hrow
      have hmem : row ∈ first :: rest := List.getElem?_mem hrow
      have hrl : row.length = first.length := hrect row hmem first (List.mem_cons_self _ _)
      constructor
      · rw [href, List.getElem?_map, hrow]
        rfl
      · rw [← eraseIdx_eq_take_append_drop]
        exact length_eraseIdx_lt row index (by omega)

/-- The statement of C7 at `[["A","B"],["C","D"]]` and index 1. -/
theorem deleteColumn_eq_ref_witness :
    deleteColumn (Grid.ofText [["A", "B"], ["C", "D"]]) 1 (Grid.ofText [["A", "B"], ["C", "D"]])
      = Except.ok (Grid.ofText (deleteColumnRef [["A", "B"], ["C", "D"]] 1)) ∧
    (columnCount [["A", "B"], ["C", "D"]] = 1 → deleteColumnRef [["A", "B"], ["C", "D"]] 1 = [["A", "B"], ["C", "D"]]) ∧
    (columnCount [["A", "B"], ["C", "D"]] ≠ 1 →
      (deleteColumnRef [["A", "B"], ["C", "D"]] 1).length = [["A", "B"], ["C", "D"]].length ∧
      ∀ (i : Nat) (row : List String), [["A", "B"], ["C", "D"]][i]? = some row →
        (deleteColumnRef [["A", "B"], ["C", "D"]] 1)[i]? = some (row.take 1 ++ row.drop (1 + 1)) ∧
        (row.take 1 ++ row.drop (1 + 1)).length + 1 = row.length) :=
  deleteColumn_eq_ref [["A", "B"], ["C", "D"]] 1
    (by intro r hr r' hr'; simp at hr hr'; rcases hr with rfl | rfl <;> rcases hr' with rfl | rfl <;> rfl)
    (Or.inr (by decide))

/-! ## Writing a cell -/

theorem set_of_getElem? {α : Type} (l : List α) :
    ∀ (i : Nat) (a : α), l[i]? = some a → l.set i a = l := by
  induction l with
  | nil => intro i a h; simp at h
  | cons x xs ih =>
    intro i a h
    cases i with
    | zero =>
      simp only [List.getElem?_cons_zero, Option.some.injEq] at h
      subst h
      rfl
    | succ n =>
      simp only [List.getElem?_cons_succ] at h
      simp [ih n a h]

theorem map_spread_ofText (t : List (List String)) :
    (Grid.ofText t).map spread = Grid.ofText t := by
  simp only [Grid.ofText, List.map_map]
  apply List.map_congr_left
  intro row _
  exact spread_ofText row

theorem handleInput_ofText_row (t : List (List String)) (r c : Nat) (v : String)
    (row : List String) (hr : t[r]? = some row) :
    handleInput r c v (Grid.ofText t)
      = Except.ok ((Grid.ofText t).set r (assignIndex (Row.ofText row) c (Cell.text v))) := by
  have hget : (Grid.ofText t)[r]? = some (Row.ofText row) := by
    simp [Grid.ofText, hr]
  simp only [handleInput, map_spread_ofText, hget]

theorem handleInput_ofText_none (t : List (List String)) (r c : Nat) (v : String)
    (hr : t.length ≤ r) :
    handleInput r c v (Grid.ofText t) = Except.error JsError.typeError := by
  have hget : (Grid.ofText t)[r]? = none := by
    simp [Grid.ofText, hr]
  simp only [handleInput, map_spread_ofText, hget]

/-- C2: on every grid of text, for every position `(r, c)` in bounds and every
text `v`, `handleInput(r, c, v)` produces a grid of text whose cell at `(r, c)` is
exactly `v`, whose every other cell is the one held before, and whose row count
and row lengths are unchanged. -/
theorem handleInput_in_bounds (t : List (List String)) (r c : Nat) (v : String)
    (row : List String) (hr : t[r]? = some row) (hc : c < row.length) :
    ∃ t' : List (List String),
      handleInput r c v (Grid.ofText t) = Except.ok (Grid.ofText t') ∧
      cellAt t' r c = some v ∧
      (∀ i j : Nat, (i ≠ r ∨ j ≠ c) → cellAt t' i j = cellAt t i j) ∧
      t'.length = t.length ∧
      (∀ i : Nat, (t'[i]?).map List.length = (t[i]?).map List.length) := by
  have hrlt : r < t.length := (List.getElem?_eq_some_iff.1 hr).1
  refine ⟨t.set r (row.set c v), ?_, ?_, ?_, by simp, ?_⟩
  · rw [handleInput_ofText_row t r c v row hr]
    have hassign : assignIndex (Row.ofText row) c (Cell.text v) = Row.ofText (row.set c v) := by
      have hlen : c < (Row.ofText row).length := by simpa [Row.ofText] using hc
      unfold assignIndex
      rw [if_pos hlen]
      simp [Row.ofText]
    rw [hassign]
    simp [Grid.ofText]
  · simp [cellAt, hrlt, hc]
  · intro i j hij
    by_cases hi : i = r
    · subst hi
      have hj : j ≠ c := by
        rcases hij with h | h
        · exact absurd rfl h
        · exact h
      simp [cellAt, hrlt, hr, List.getElem?_set_ne (Ne.symm hj)]
    · simp [cellAt, List.getElem?_set_ne (Ne.symm hi)]
  · intro i
    by_cases hi : i = r
    · subst hi
      simp [hrlt, hr]
    · simp [List.getElem?_set_ne (Ne.symm hi)]

/-- The statement of C2 at `[["Name",""],["",""]]`, position `(0, 1)` and text `"Age"`. -/
theorem handleInput_in_bounds_witness :
    ∃ t' : List (List String),
      handleInput 0 1 "Age" (Grid.ofText [["Name", ""], ["", ""]]) = Except.ok (Grid.ofText t') ∧
      cellAt t' 0 1 = some "Age" ∧
      (∀ i j : Nat, (i ≠ 0 ∨ j ≠ 1) → cellAt t' i j = cellAt [["Name", ""], ["", ""]] i j) ∧
      t'.length = [["Name", ""], ["", ""]].length ∧
      (∀ i : Nat, (t'[i]?).map List.length = ([["Name", ""], ["", ""]][i]?).map List.length) :=
  handleInput_in_bounds [["Name", ""], ["", ""]] 0 1 "Age" ["Name", ""] rfl (by decide)

/-- C3, as stated, fails: on the rectangular grid `[["a"],["b"]]` the call
`handleInput(0, 1, "x")` addresses a column out of bounds, yet it neither throws
nor leaves the grid unchanged; it produces `[["a","x"],["b"]]`, whose rows differ
in length. -/
theorem setCell_past_last_column_ragged :
    Rectangular [["a"], ["b"]] ∧
    columnCount [["a"], ["b"]] ≤ 1 ∧
    handleInput 0 1 "x" (Grid.ofText [["a"], ["b"]])
      = Except.ok (Grid.ofText [["a", "x"], ["b"]]) ∧
    Grid.ofText [["a", "x"], ["b"]] ≠ Grid.ofText [["a"], ["b"]] ∧
    ¬ Rectangular (Grid.ofText [["a", "x"], ["b"]]) := by
  refine ⟨?_, by decide, rfl, by decide, ?_⟩
  · intro r hr r' hr'
    simp at hr hr'
    rcases hr with rfl | rfl <;> rcases hr' with rfl | rfl <;> rfl
  · intro h
    have := h [Cell.text "a", Cell.text "x"] (by simp [Grid.ofText, Row.ofText])
      [Cell.text "b"] (by simp [Grid.ofText, Row.ofText])
    simp at this

/-- C3, amended: on every rectangular grid of text and every position out of
bounds, `handleInput` throws a TypeError and produces no grid when the row index
is not below the row count.  When the row exists and the column index is not
below the column count, there are two cases.  For a column index up to
`2^32 - 2` it produces a new grid in which that row has grown to length
`col + 1`, keeps its former cells at their positions, has holes after them and
the value at `col`, while every other row is unchanged and strictly shorter, so
that the rows differ in length as soon as there are two rows.  For a column
index from `2^32 - 1` on, the produced grid has the cells and lengths of the
grid before. -/
theorem handleInput_out_of_bounds (t : List (List String)) (r c : Nat) (v : String)
    (hrect : Rectangular t) (hoob : t.length ≤ r ∨ columnCount t ≤ c) :
    match t[r]? with
    | none => handleInput r c v (Grid.ofText t) = Except.error JsError.typeError
    | some row =>
      (c < arrayIndexLimit →
        ∃ grown : Row,
          grown = Row.ofText row ++ List.replicate (c - row.length) Cell.hole ++ [Cell.text v] ∧
          handleInput r c v (Grid.ofText t) = Except.ok ((Grid.ofText t).set r grown) ∧
          grown.length = c + 1 ∧
          grown[c]? = some (Cell.text v) ∧
          (∀ (i : Nat) (other : Row), i ≠ r → ((Grid.ofText t).set r grown)[i]? = some other →
            (Grid.ofText t)[i]? = some other ∧ other.length < grown.length) ∧
          (2 ≤ t.length → ¬ Rectangular ((Grid.ofText t).set r grown))) ∧
      (arrayIndexLimit ≤ c →
        handleInput r c v (Grid.ofText t) = Except.ok (Grid.ofText t)) := by
  cases hr : t[r]? with
  | none =>
    show handleInput r c v (Grid.ofText t) = Except.error JsError.typeError
    exact handleInput_ofText_none t r c v (List.getElem?_eq_none_iff.1 hr)
  | some row =>
    show (c < arrayIndexLimit → ∃ grown : Row, _) ∧ (arrayIndexLimit ≤ c → _)
    have hrlt : r < t.length := (List.getElem?_eq_some_iff.1 hr).1
    have hmem : row ∈ t := List.getElem?_mem hr
    have hcol : ∀ row' ∈ t, row'.length ≤ c := by
      intro row' hrow'
      rcases hoob with h | h
      · omega
      · cases t with
        | nil => simp at hrlt
        | cons first rest =>
          have : row'.length = first.length := hrect row' hrow' first (List.mem_cons_self _ _)
          simp only [columnCount] at h
          omega
    have hlen : row.length ≤ c := hcol row hmem
    have hnot : ¬ c < (Row.ofText row).length := by
      simp [Row.ofText]
      omega
    constructor
    · intro hidx
      have hglen : (Row.ofText row ++ List.replicate (c - row.length) Cell.hole
          ++ [Cell.text v]).length = c + 1 := by
        simp [Row.ofText]
        omega
      have hother : ∀ (i : Nat) (other : Row), i ≠ r →
          ((Grid.ofText t).set r (Row.ofText row ++ List.replicate (c - row.length) Cell.hole
            ++ [Cell.text v]))[i]? = some other →
          (Grid.ofText t)[i]? = some other ∧ other.length < c + 1 := by
        intro i other hi hget
        rw [List.getElem?_set_ne (Ne.symm hi)] at hget
        refine ⟨hget, ?_⟩
        simp only [Grid.ofText, List.getElem?_map, Option.map_eq_some'] at hget
        obtain ⟨row', hrow', rfl⟩ := hget
        have := hcol row' (List.getElem?_mem hrow')
        simp [Row.ofText]
        omega
      refine ⟨_, rfl, ?_, hglen, ?_, ?_, ?_⟩
      · rw [handleInput_ofText_row t r c v row hr]
        have hl : (Row.ofText row).length = row.length := by simp [Row.ofText]
        unfold assignIndex
        rw [if_neg hnot, if_pos hidx, hl]
      · have hpre : (Row.ofText row ++ List.replicate (c - row.length) Cell.hole).length = c := by
          simp [Row.ofText]
          omega
        rw [List.getElem?_append_right (Nat.le_of_eq hpre), hpre]
        simp
      · intro i other hi hget
        rw [hglen]
        exact hother i other hi hget
      · intro h2 hR
        have hrlt' : r < (Grid.ofText t).length := by simpa [Grid.ofText] using hrlt
        have hgmem : (Row.ofText row ++ List.replicate (c - row.length) Cell.hole
            ++ [Cell.text v]) ∈ (Grid.ofText t).set r (Row.ofText row ++
              List.replicate (c - row.length) Cell.hole ++ [Cell.text v]) :=
          List.mem_set _ r hrlt' _
        have hi : ∃ i : Nat, i ≠ r ∧ i < t.length := by
          by_cases h0 : r = 0
          · exact ⟨1, by omega, by omega⟩
          · exact ⟨0, by omega, by omega⟩
        obtain ⟨i, hir, hilt⟩ := hi
        have hilt' : i < ((Grid.ofText t).set r (Row.ofText row ++
            List.replicate (c - row.length) Cell.hole ++ [Cell.text v])).length := by
          simpa [Grid.ofText] using hilt
        obtain ⟨other, hget⟩ : ∃ other, ((Grid.ofText t).set r (Row.ofText row ++
            List.replicate (c - row.length) Cell.hole ++ [Cell.text v]))[i]? = some other :=
          ⟨_, List.getElem?_eq_getElem hilt'⟩
        have hlt := (hother i other hir hget).2
        have heq := hR other (List.getElem?_mem hget) _ hgmem
        rw [hglen] at heq
        omega
    · intro hidx
      have hnidx : ¬ c < arrayIndexLimit := by omega
      have hget : (Grid.ofText t)[r]? = some (Row.ofText row) := by
        simp [Grid.ofText, hr]
      rw [handleInput_ofText_row t r c v row hr]
      unfold assignIndex
      rw [if_neg hnot, if_neg hnidx]
      rw [set_of_getElem? (Grid.ofText t) r (Row.ofText row) hget]

/-- The amended statement of C3 at `[["a"],["b"]]`, position `(0, 3)` and text `"x"`. -/
theorem handleInput_out_of_bounds_witness :
    match [["a"], ["b"]][0]? with
    | none => handleInput 0 3 "x" (Grid.ofText [["a"], ["b"]]) = Except.error JsError.typeError
    | some row =>
      (3 < arrayIndexLimit →
        ∃ grown : Row,
          grown = Row.ofText row ++ List.replicate (3 - row.length) Cell.hole ++ [Cell.text "x"] ∧
          handleInput 0 3 "x" (Grid.ofText [["a"], ["b"]])
            = Except.ok ((Grid.ofText [["a"], ["b"]]).set 0 grown) ∧
          grown.length = 3 + 1 ∧
          grown[3]? = some (Cell.text "x") ∧
          (∀ (i : Nat) (other : Row), i ≠ 0 →
            ((Grid.ofText [["a"], ["b"]]).set 0 grown)[i]? = some other →
            (Grid.ofText [["a"], ["b"]])[i]? = some other ∧ other.length < grown.length) ∧
          (2 ≤ [["a"], ["b"]].length → ¬ Rectangular ((Grid.ofText [["a"], ["b"]]).set 0 grown))) ∧
      (arrayIndexLimit ≤ 3 →
        handleInput 0 3 "x" (Grid.ofText [["a"], ["b"]]) = Except.ok (Grid.ofText [["a"], ["b"]])) :=
  handleInput_out_of_bounds [["a"], ["b"]] 0 3 "x"
    (by intro r hr r' hr'; simp at hr hr'; rcases hr with rfl | rfl <;> rcases hr' with rfl | rfl <;> rfl)
    (Or.inr (by decide))

/-! ## The shape invariant -/

theorem inv_initialTable : Inv initialTable := by
  refine ⟨⟨by simp [initialTable], ?_, ?_⟩, ?_⟩
  · intro r hr
    simp [initialTable] at hr
    subst hr
    simp
  · intro r hr r' hr'
    simp [initialTable] at hr hr'
    subst hr
    subst hr'
    rfl
  · intro r hr cell hc
    simp [initialTable] at hr
    subst hr
    simp at hc
    subst hc
    rfl

theorem inv_addRow (g g' : Grid) (h : Inv g) (hs : addRow g = Except.ok g') : Inv g' := by
  obtain ⟨⟨h1, h2, h3⟩, h4⟩ := h
  cases g with
  | nil => simp at h1
  | cons first rest =>
    simp only [addRow, Except.ok.injEq] at hs
    subst hs
    have hf : first ∈ first :: rest := List.mem_cons_self _ _
    have hall : ∀ r ∈ (first :: rest) ++ [arrayFill first.length], r.length = first.length := by
      intro r hr
      rcases List.mem_append.1 hr with h | h
      · exact h3 r h first hf
      · simp only [List.mem_singleton] at h
        subst h
        simp [arrayFill]
    refine ⟨⟨by simp, ?_, ?_⟩, ?_⟩
    · intro r hr
      rw [hall r hr]
      exact h2 first hf
    · intro r hr r' hr'
      rw [hall r hr, hall r' hr']
    · intro r hr
      rcases List.mem_append.1 hr with h | h
      · exact h4 r h
      · simp only [List.mem_singleton] at h
        subst h
        intro cell hc
        rw [List.eq_of_mem_replicate hc]
        rfl

theorem inv_addColumn (g : Grid) (h : Inv g) : Inv (addColumn g) := by
  obtain ⟨⟨h1, h2, h3⟩, h4⟩ := h
  refine ⟨⟨by simpa [addColumn] using h1, ?_, ?_⟩, ?_⟩
  · intro r hr
    simp only [addColumn, List.mem_map] at hr
    obtain ⟨a, _, rfl⟩ := hr
    simp
  · intro r hr r' hr'
    simp only [addColumn, List.mem_map] at hr hr'
    obtain ⟨a, ha, rfl⟩ := hr
    obtain ⟨b, hb, rfl⟩ := hr'
    simp [length_spread, h3 a ha b hb]
  · intro r hr
    simp only [addColumn, List.mem_map] at hr
    obtain ⟨a, _, rfl⟩ := hr
    intro cell hc
    rcases List.mem_append.1 hc with h | h
    · exact dense_spread a cell h
    · simp only [List.mem_singleton] at h
      subst h
      rfl

theorem inv_deleteRow (g : Grid) (index : Nat) (h : Inv g) : Inv (deleteRow g index g) := by
  by_cases hone : g.length = 1
  · simpa [deleteRow, hone] using h
  · obtain ⟨⟨h1, h2, h3⟩, h4⟩ := h
    rw [deleteRow_eq_eraseIdx g index hone]
    have hsub : ∀ r ∈ g.eraseIdx index, r ∈ g := fun r hr => List.mem_of_mem_eraseIdx hr
    refine ⟨⟨?_, fun r hr => h2 r (hsub r hr),
      fun r hr r' hr' => h3 r (hsub r hr) r' (hsub r' hr')⟩, fun r hr => h4 r (hsub r hr)⟩
    rw [List.length_eraseIdx]
    split <;> omega

theorem inv_deleteColumn (g g' : Grid) (index : Nat) (h : Inv g)
    (hs : deleteColumn g index g = Except.ok g') : Inv g' := by
  obtain ⟨⟨h1, h2, h3⟩, h4⟩ := h
  cases g with
  | nil => simp at h1
  | cons first rest =>
    have hf : first ∈ first :: rest := List.mem_cons_self _ _
    by_cases hone : first.length = 1
    · simp only [deleteColumn, if_pos hone, Except.ok.injEq] at hs
      subst hs
      exact ⟨⟨h1, h2, h3⟩, h4⟩
    · simp only [deleteColumn, if_neg hone, Except.ok.injEq] at hs
      subst hs
      have hrow : ∀ r ∈ first :: rest,
          filterNe Cell.isHole index 0 r = r.eraseIdx index := by
        intro r hr
        simpa using filterNe_eq_eraseIdx Cell.isHole index r 0 (h4 r hr) (Nat.zero_le _)
      have hlen : ∀ r ∈ first :: rest, (r.eraseIdx index).length
          = if index < first.length then first.length - 1 else first.length := by
        intro r hr
        rw [List.length_eraseIdx, h3 r hr first hf]
      have hfl : 2 ≤ first.length := by
        have := h2 first hf
        omega
      refine ⟨⟨by simp, ?_, ?_⟩, ?_⟩
      · intro r hr
        simp only [List.mem_map] at hr
        obtain ⟨a, ha, rfl⟩ := hr
        rw [hrow a ha, hlen a ha]
        split <;> omega
      · intro r hr r' hr'
        simp only [List.mem_map] at hr hr'
        obtain ⟨a, ha, rfl⟩ := hr
        obtain ⟨b, hb, rfl⟩ := hr'
        rw [hrow a ha, hrow b hb, hlen a ha, hlen b hb]
      · intro r hr
        simp only [List.mem_map] at hr
        obtain ⟨a, ha, rfl⟩ := hr
        rw [hrow a ha]
        intro cell hc
        exact h4 a ha cell (List.mem_of_mem_eraseIdx hc)

theorem inv_handleInput (g g' : Grid) (row col : Nat) (v : String) (h : Inv g)
    (hb : ∃ r, g[row]? = some r ∧ col < r.length)
    (hs : handleInput row col v g = Except.ok g') : Inv g' := by
  obtain ⟨⟨h1, h2, h3⟩, h4⟩ := h
  obtain ⟨r0, hr0, hcol⟩ := hb
  have hcopy : g.map spread = g := by
    conv_rhs => rw [← List.map_id g]
    apply List.map_congr_left
    intro r hr
    exact spread_of_dense r (h4 r hr)
  simp only [handleInput, hcopy, hr0, Except.ok.injEq] at hs
  subst hs
  have hassign : assignIndex r0 col (Cell.text v) = r0.set col (Cell.text v) := by
    unfold assignIndex
    rw [if_pos hcol]
  rw [hassign]
  have hr0mem : r0 ∈ g := List.getElem?_mem hr0
  have hlen : ∀ r ∈ g.set row (r0.set col (Cell.text v)), ∃ a ∈ g, r.length = a.length := by
    intro r hr
    rcases List.mem_or_eq_of_mem_set hr with h | h
    · exact ⟨r, h, rfl⟩
    · exact ⟨r0, hr0mem, by rw [h]; simp⟩
  refine ⟨⟨by simpa using h1, ?_, ?_⟩, ?_⟩
  · intro r hr
    obtain ⟨a, ha, hra⟩ := hlen r hr
    rw [hra]
    exact h2 a ha
  · intro r hr r' hr'
    obtain ⟨a, ha, hra⟩ := hlen r hr
    obtain ⟨b, hb, hrb⟩ := hlen r' hr'
    rw [hra, hrb]
    exact h3 a ha b hb
  · intro r hr
    rcases List.mem_or_eq_of_mem_set hr with h | h
    · exact h4 r h
    · subst h
      intro cell hc
      rcases List.mem_or_eq_of_mem_set hc with h | h
      · exact h4 r0 hr0mem cell h
      · subst h
        rfl

theorem inv_applyOp (g g' : Grid) (op : Op) (h : Inv g)
    (hb : (Event.call op).admissible (View.mk g g))
    (hs : applyOp g op g = Except.ok g') : Inv g' := by
  cases op with
  | addRow => exact inv_addRow g g' h hs
  | addColumn =>
    simp only [applyOp, Except.ok.injEq] at hs
    subst hs
    exact inv_addColumn g h
  | deleteRow index =>
    simp only [applyOp, Except.ok.injEq] at hs
    subst hs
    exact inv_deleteRow g index h
  | deleteColumn index => exact inv_deleteColumn g g' index h hs
  | setCell row col value => exact inv_handleInput g g' row col value h hb hs

theorem inv_stepView (v v' : View) (e : Event) (h : Inv v.table ∧ Inv v.state)
    (hb : e.admissible v) (hs : stepView v e = Except.ok v') :
    Inv v'.table ∧ Inv v'.state := by
  obtain ⟨table, state⟩ := v
  obtain ⟨ht, hst⟩ := h
  cases e with
  | render =>
    simp only [stepView, Except.ok.injEq] at hs
    subst hs
    exact ⟨hst, hst⟩
  | call op =>
    simp only [stepView] at hs
    cases hop : applyOp table op state with
    | error err => simp [hop] at hs
    | ok s =>
      simp only [hop, Except.ok.injEq] at hs
      subst hs
      refine ⟨ht, ?_⟩
      cases op with
      | addRow => exact inv_addRow state s hst hop
      | addColumn =>
        simp only [applyOp, Except.ok.injEq] at hop
        subst hop
        exact inv_addColumn state hst
      | deleteRow index =>
        have heq : table = state := hb
        subst heq
        exact inv_applyOp table s (Op.deleteRow index) hst rfl hop
      | deleteColumn index =>
        have heq : table = state := hb
        subst heq
        exact inv_applyOp table s (Op.deleteColumn index) hst rfl hop
      | setCell row col value => exact inv_handleInput state s row col value hst hb hop

/-- C1, as stated, fails, in two ways.  From the initial grid, `addRow`, a
re-render and `handleInput(0, 1, "x")` reach `[["","x"],[""]]`, whose two rows
differ in length.  And `addRow`, a re-render and two calls `deleteRow(0)` from
that one render reach the grid without rows: the guard of the second call still
reads the two-row `table` of the render. -/
theorem reachable_not_wellShaped :
    (runEvents initialView [Event.call Op.addRow, Event.render, Event.call (Op.setCell 0 1 "x")]
        = Except.ok (View.mk [[Cell.text ""], [Cell.text ""]]
            [[Cell.text "", Cell.text "x"], [Cell.text ""]]) ∧
      Reachable (View.mk [[Cell.text ""], [Cell.text ""]]
        [[Cell.text "", Cell.text "x"], [Cell.text ""]]) ∧
      ¬ WellShaped [[Cell.text "", Cell.text "x"], [Cell.text ""]]) ∧
    (runEvents initialView [Event.call Op.addRow, Event.render, Event.call (Op.deleteRow 0),
        Event.call (Op.deleteRow 0)]
        = Except.ok (View.mk [[Cell.text ""], [Cell.text ""]] []) ∧
      Reachable (View.mk [[Cell.text ""], [Cell.text ""]] []) ∧
      ¬ WellShaped []) := by
  have hrender : Reachable (View.mk [[Cell.text ""], [Cell.text ""]]
      [[Cell.text ""], [Cell.text ""]]) :=
    Reachable.event (View.mk initialTable [[Cell.text ""], [Cell.text ""]]) _ Event.render
      (Reachable.event initialView _ (Event.call Op.addRow) Reachable.init rfl) rfl
  refine ⟨⟨rfl, ?_, ?_⟩, ⟨rfl, ?_, ?_⟩⟩
  · exact Reachable.event _ _ (Event.call (Op.setCell 0 1 "x")) hrender rfl
  · intro h
    have := h.2.2 [Cell.text "", Cell.text "x"] (by simp) [Cell.text ""] (by simp)
    simp at this
  · exact Reachable.event (View.mk [[Cell.text ""], [Cell.text ""]] [[Cell.text ""]]) _
      (Event.call (Op.deleteRow 0))
      (Reachable.event _ _ (Event.call (Op.deleteRow 0)) hrender rfl) rfl
  · intro h
    have := h.1
    simp at this

/-- C1, amended: every grid state reachable from the initial grid `[[""]]` by
any finite sequence of `addRow`, `addColumn`, `deleteRow(index)`,
`deleteColumn(index)` and `handleInput(row, col, value)` calls and re-renders,
in which every `deleteRow` and `deleteColumn` call, with an arbitrary index, is
made from a render that shows the current state, and every `handleInput`
position lies inside the current bounds, has at least one row, at least one
column, and all rows of the same length; so has the rendered grid. -/
theorem reachableAdmissible_wellShaped (v : View) (h : ReachableAdmissible v) :
    WellShaped v.state ∧ WellShaped v.table := by
  have hinv : Inv v.table ∧ Inv v.state := by
    induction h with
    | init => exact ⟨inv_initialTable, inv_initialTable⟩
    | event v v' e _ hb hs ih => exact inv_stepView v v' e ih hb hs
  exact ⟨hinv.2.1, hinv.1.1⟩

/-- The amended statement of C1 at the view reached by `addColumn`, `addRow`
without a re-render in between, a re-render, `deleteRow(7)` and
`handleInput(0, 0, "Name")`. -/
theorem reachableAdmissible_wellShaped_witness :
    WellShaped (View.mk [[Cell.text "", Cell.text ""], [Cell.text "", Cell.text ""]]
      [[Cell.text "Name", Cell.text ""], [Cell.text "", Cell.text ""]]).state ∧
    WellShaped (View.mk [[Cell.text "", Cell.text ""], [Cell.text "", Cell.text ""]]
      [[Cell.text "Name", Cell.text ""], [Cell.text "", Cell.text ""]]).table :=
  reachableAdmissible_wellShaped _
    (ReachableAdmissible.event
      (View.mk [[Cell.text "", Cell.text ""], [Cell.text "", Cell.text ""]]
        [[Cell.text "", Cell.text ""], [Cell.text "", Cell.text ""]]) _
      (Event.call (Op.setCell 0 0 "Name"))
      (ReachableAdmissible.event
        (View.mk [[Cell.text "", Cell.text ""], [Cell.text "", Cell.text ""]]
          [[Cell.text "", Cell.text ""], [Cell.text "", Cell.text ""]]) _
        (Event.call (Op.deleteRow 7))
        (ReachableAdmissible.event
          (View.mk initialTable [[Cell.text "", Cell.text ""], [Cell.text "", Cell.text ""]]) _
          Event.render
          (ReachableAdmissible.event (View.mk initialTable [[Cell.text "", Cell.text ""]]) _
            (Event.call Op.addRow)
            (ReachableAdmissible.event initialView _ (Event.call Op.addColumn)
              ReachableAdmissible.init trivial rfl)
            trivial rfl)
          trivial rfl)
        rfl rfl)
      ⟨[Cell.text "", Cell.text ""], rfl, by decide⟩ rfl)

/-! ## The page document -/

theorem joinLoop_eq_go (sep : String) (row : Row) :
    ∀ (k : Nat) (R : String), 0 < k →
      joinLoop sep k row R = String.intercalate.go R sep (row.map cellToString) := by
  induction row with
  | nil => intro k R _; rfl
  | cons e rest ih =>
    intro k R hk
    simp only [joinLoop, List.map_cons, String.intercalate.go, if_pos hk]
    exact ih (k + 1) _ (Nat.succ_pos k)

theorem join_eq_intercalate (row : Row) (sep : String) :
    join row sep = String.intercalate sep (row.map cellToString) := by
  cases row with
  | nil => rfl
  | cons e rest =>
    simp only [join, joinLoop, List.map_cons, String.intercalate]
    rw [joinLoop_eq_go sep rest 1 _ Nat.one_pos]
    simp

theorem length_forEachText (g : Grid) : ∀ k : Nat, (forEachText k g).length = g.length := by
  induction g with
  | nil => intro k; rfl
  | cons row rest ih => intro k; simp [forEachText, ih (k + 1)]

theorem getElem?_forEachText (g : Grid) :
    ∀ (k i : Nat) (row : Row), g[i]? = some row →
      (forEachText k g)[i]? = some (PdfCall.text (join row "   |   ") 40 (40 + (k + i) * 18)) := by
  induction g with
  | nil => intro k i row h; simp at h
  | cons first rest ih =>
    intro k i row h
    cases i with
    | zero =>
      simp only [List.getElem?_cons_zero, Option.some.injEq] at h
      subst h
      simp [forEachText]
    | succ n =>
      simp only [List.getElem?_cons_succ] at h
      have := ih (k + 1) n row h
      simp only [forEachText, List.getElem?_cons_succ, this]
      have harith : k + 1 + n = k + (n + 1) := by omega
      rw [harith]

/-- C9: for every grid, `exportPDF` issues exactly one text placement per grid
row, in row order, followed by the save call; the placement for the row at index
`i` carries that row's cells joined by the seven-character separator of three
spaces, a pipe and three spaces (a one-cell row gives the cell text alone), at
horizontal position 40 and vertical position `40 + 18 * i`, whatever the row
count. -/
theorem exportPDF_placements (g : Grid) :
    (exportPDF g).length = g.length + 1 ∧
    (∀ (i : Nat) (row : Row), g[i]? = some row →
      (exportPDF g)[i]? = some
        (PdfCall.text (String.intercalate "   |   " (row.map cellToString)) 40 (40 + 18 * i))) ∧
    (exportPDF g)[g.length]? = some (PdfCall.save "table.pdf") ∧
    (∀ cell : Cell, join [cell] "   |   " = cellToString cell) ∧
    "   |   " = "   " ++ "|" ++ "   " ∧ "   |   ".length = 7 := by
  refine ⟨by simp [exportPDF, length_forEachText], ?_, ?_, ?_, by decide, by decide⟩
  · intro i row hrow
    have hlt : i < (forEachText 0 g).length := by
      rw [length_forEachText]
      exact (List.getElem?_eq_some_iff.1 hrow).1
    unfold exportPDF
    rw [List.getElem?_append_left hlt, getElem?_forEachText g 0 i row hrow,
      join_eq_intercalate]
    simp [Nat.mul_comm]
  · unfold exportPDF
    rw [List.getElem?_append_right (by rw [length_forEachText]), length_forEachText]
    simp
  · intro cell
    rw [join_eq_intercalate]
    rfl

/-! ## The flow document -/

theorem mathMax_foldl (l : List Nat) :
    ∀ acc : Nat, ∃ m : Nat,
      l.foldl
        (fun highest n =>
          match highest with
          | none => some n
          | some h => if n > h then some n else some h)
        (some acc) = some m ∧
      acc ≤ m ∧ (∀ x ∈ l, x ≤ m) ∧ (m = acc ∨ m ∈ l) := by
  induction l with
  | nil => intro acc; exact ⟨acc, rfl, Nat.le_refl _, by simp, Or.inl rfl⟩
  | cons x xs ih =>
    intro acc
    by_cases hx : x > acc
    · obtain ⟨m, hm, h1, h2, h3⟩ := ih x
      refine ⟨m, by simpa [List.foldl, hx] using hm, by omega, ?_, ?_⟩
      · intro y hy
        rcases List.mem_cons.1 hy with h | h
        · omega
        · exact h2 y h
      · rcases h3 with h | h
        · exact Or.inr (by rw [h]; exact List.mem_cons_self _ _)
        · exact Or.inr (List.mem_cons_of_mem _ h)
    · obtain ⟨m, hm, h1, h2, h3⟩ := ih acc
      refine ⟨m, by simpa [List.foldl, hx] using hm, h1, ?_, ?_⟩
      · intro y hy
        rcases List.mem_cons.1 hy with h | h
        · omega
        · exact h2 y h
      · rcases h3 with h | h
        · exact Or.inl h
        · exact Or.inr (List.mem_cons_of_mem _ h)

/-- On a non-empty list `Math.max` returns an element that bounds all others. -/
theorem mathMax_spec (l : List Nat) (hne : l ≠ []) :
    ∃ m : Nat, mathMax l = some m ∧ (∀ x ∈ l, x ≤ m) ∧ m ∈ l := by
  cases l with
  | nil => exact absurd rfl hne
  | cons x xs =>
    obtain ⟨m, hm, h1, h2, h3⟩ := mathMax_foldl xs x
    refine ⟨m, by simpa [mathMax, List.foldl] using hm, ?_, ?_⟩
    · intro y hy
      rcases List.mem_cons.1 hy with h | h
      · omega
      · exact h2 y h
    · rcases h3 with h | h
      · rw [h]; exact List.mem_cons_self _ _
      · exact List.mem_cons_of_mem _ h

/-- The padding loop terminates with the row followed by the missing number of
empty strings. -/
theorem padLoop_some (m : Nat) :
    ∀ (n : Nat) (p : Row), m - p.length = n →
      padLoop (some m) p = p ++ List.replicate n (Cell.text "") := by
  intro n
  induction n with
  | zero =>
    intro p hp
    rw [padLoop]
    have : ¬ p.length < m := by omega
    simp [ltMax, this]
  | succ n ih =>
    intro p hp
    rw [padLoop]
    have hlt : p.length < m := by omega
    have hnext := ih (p ++ [Cell.text ""]) (by simp; omega)
    simp only [ltMax, hlt, decide_True, if_true, hnext]
    simp [List.replicate_succ]

theorem orSpace_spread (cell : Cell) :
    orSpace (match cell with
      | Cell.hole => Cell.undefined
      | other => other)
      = if cellToString cell = "" then " " else cellToString cell := by
  cases cell <;> simp [orSpace, cellToString]

/-- The table row built for `row` when the longest row has `m` cells. -/
theorem tableRow_at (g : Grid) (m : Nat) (hm : mathMax (g.map fun r => r.length) = some m)
    (i : Nat) (row : Row) (hrow : g[i]? = some row) :
    (exportWord g).rows[i]? = some
      ((spread row ++ List.replicate (m - row.length) (Cell.text "")).map
        fun cell => { width := 2000, paragraph := orSpace cell : WordCell }) := by
  simp only [exportWord, hm, List.getElem?_map, hrow, Option.map_some']
  rw [padLoop_some m (m - row.length) (spread row) (by rw [length_spread])]

/-- C8: for every non-empty grid, possibly ragged, the table that `exportWord`
hands to the document builder has one row per grid row in the same order; every
table row has as many cells as the longest grid row; a cell at a position that
exists in the grid carries that grid cell's text when it is non-empty and a
single space when it is empty; every cell added by padding carries a single
space. -/
theorem exportWord_rows (g : Grid) (hne : g ≠ []) :
    ∃ m : Nat,
      (∀ row ∈ g, row.length ≤ m) ∧ (∃ row ∈ g, row.length = m) ∧
      (exportWord g).rows.length = g.length ∧
      ∀ (i : Nat) (row : Row), g[i]? = some row →
        ∃ wrow : List WordCell,
          (exportWord g).rows[i]? = some wrow ∧
          wrow.length = m ∧
          (∀ (j : Nat) (cell : Cell), row[j]? = some cell →
            (wrow[j]?).map WordCell.paragraph
              = some (if cellToString cell = "" then " " else cellToString cell)) ∧
          (∀ j : Nat, row.length ≤ j → j < m →
            (wrow[j]?).map WordCell.paragraph = some " ") := by
  obtain ⟨m, hm, hle, hmem⟩ := mathMax_spec (g.map fun r => r.length) (by simpa using hne)
  have hle' : ∀ row ∈ g, row.length ≤ m := fun row hr =>
    hle row.length (List.mem_map.2 ⟨row, hr, rfl⟩)
  refine ⟨m, hle', ?_, by simp [exportWord], ?_⟩
  · obtain ⟨row, hr, hlen⟩ := List.mem_map.1 hmem
    exact ⟨row, hr, hlen⟩
  · intro i row hrow
    have hrl : row.length ≤ m := hle' row (List.getElem?_mem hrow)
    refine ⟨_, tableRow_at g m hm i row hrow, ?_, ?_, ?_⟩
    · simp [length_spread]
      omega
    · intro j cell hcell
      have hj : j < row.length := (List.getElem?_eq_some_iff.1 hcell).1
      have hjs : j < (spread row).length := by rw [length_spread]; exact hj
      rw [List.getElem?_map, List.getElem?_append_left hjs]
      simp only [spread, List.getElem?_map, hcell, Option.map_some']
      rw [orSpace_spread]
    · intro j hj hjm
      have hjs : (spread row).length ≤ j := by rw [length_spread]; exact hj
      rw [List.getElem?_map, List.getElem?_append_right hjs, length_spread,
        List.getElem?_replicate_of_lt (by omega)]
      rfl

/-- The statement of C8 at a grid with rows of length 2, 3 and 1. -/
theorem exportWord_rows_witness :
    ∃ m : Nat,
      (∀ row ∈ Grid.ofText [["a", ""], ["b", "c", "d"], ["e"]], row.length ≤ m) ∧
      (∃ row ∈ Grid.ofText [["a", ""], ["b", "c", "d"], ["e"]], row.length = m) ∧
      (exportWord (Grid.ofText [["a", ""], ["b", "c", "d"], ["e"]])).rows.length
        = (Grid.ofText [["a", ""], ["b", "c", "d"], ["e"]]).length ∧
      ∀ (i : Nat) (row : Row), (Grid.ofText [["a", ""], ["b", "c", "d"], ["e"]])[i]? = some row →
        ∃ wrow : List WordCell,
          (exportWord (Grid.ofText [["a", ""], ["b", "c", "d"], ["e"]])).rows[i]? = some wrow ∧
          wrow.length = m ∧
          (∀ (j : Nat) (cell : Cell), row[j]? = some cell →
            (wrow[j]?).map WordCell.paragraph
              = some (if cellToString cell = "" then " " else cellToString cell)) ∧
          (∀ j : Nat, row.length ≤ j → j < m →
            (wrow[j]?).map WordCell.paragraph = some " ") :=
  exportWord_rows (Grid.ofText [["a", ""], ["b", "c", "d"], ["e"]]) (by decide)

/-! ## Exports of a grid without rows -/

/-- C10, as stated, fails: on the grid with zero rows `exportPDF` reports no
error; it issues no text placement and then the save call, so an artifact is
produced. -/
theorem exportPDF_empty_saves :
    exportPDF [] = [PdfCall.save "table.pdf"] ∧ PdfCall.save "table.pdf" ∈ exportPDF [] := by
  constructor
  · rfl
  · simp [exportPDF, forEachText]

/-- C10, amended: none of the three export transforms validates the grid.  On
the grid with zero rows `exportPDF` issues the save call alone, `exportExcel`
hands the empty grid to the sheet builder and writes the workbook, and
`exportWord` hands a table without rows to the document builder.  On every grid,
with or without rows, the mapping runs to its end: `exportPDF` ends with the
save call, `exportExcel` hands over the grid as it is and ends with the write
call, `exportWord` builds one table row per grid row. -/
theorem exports_do_not_validate :
    exportPDF [] = [PdfCall.save "table.pdf"] ∧
    exportExcel [] = [XlsxCall.aoaToSheet [], XlsxCall.bookNew,
      XlsxCall.bookAppendSheet "Table", XlsxCall.writeFile "table.xlsx"] ∧
    exportWord [] = { rows := [], widthPercent := 100, trailing := " " } ∧
    ∀ g : Grid,
      (exportPDF g).getLast? = some (PdfCall.save "table.pdf") ∧
      (exportExcel g).head? = some (XlsxCall.aoaToSheet g) ∧
      (exportExcel g).getLast? = some (XlsxCall.writeFile "table.xlsx") ∧
      (exportWord g).rows.length = g.length := by
  refine ⟨rfl, rfl, rfl, ?_⟩
  intro g
  refine ⟨by simp [exportPDF], rfl, rfl, by simp [exportWord]⟩

end DynamicTable
